import Mathlib

/-!
Verification development for the HiddifyDesktop backend core: the Sidecar
Process Supervisor and the Secure Update Pipeline.  The concrete
configuration constants (package version, updater endpoint list, public
key, root element id) are embedded from the repository sources
(`src/unnamed/part_000`, `src/src/main.tsx`); the supervisor and update
pipeline algorithms, whose implementation is not among the shipped source
files, are modelled from the specification, as marked on each definition.
-/

/-- Decidable equality for `Except`, so that concrete runs of the fallible
operations can be checked by evaluation. -/
instance {ε α : Type} [DecidableEq ε] [DecidableEq α] : DecidableEq (Except ε α) :=
  fun a b =>
    match a, b with
    | .error e1, .error e2 =>
      if h : e1 = e2 then isTrue (by rw [h]) else isFalse (by intro hh; cases hh; exact h rfl)
    | .error _, .ok _ => isFalse (by intro hh; cases hh)
    | .ok _, .error _ => isFalse (by intro hh; cases hh)
    | .ok a1, .ok a2 =>
      if h : a1 = a2 then isTrue (by rw [h]) else isFalse (by intro hh; cases hh; exact h rfl)

namespace HiddifyDesktop

/-! ## Configuration constants, embedded from `src/unnamed/part_000` -/

/-- `package.version` from the Tauri configuration. -/
def packageVersion : String := "13.1.5"

/-- `tauri.updater.active` from the Tauri configuration. -/
def updaterActive : Bool := true

/-- Primary update endpoint, first entry of `tauri.updater.endpoints`. -/
def primaryEndpoint : String :=
  "https://github.com/hiddify/HiddifyClashDesktop/releases/download/updater/update.json"

/-- Mirror update endpoint, second entry of `tauri.updater.endpoints`. -/
def mirrorEndpoint : String :=
  "https://hub.fastgit.xyz/hiddify/HiddifyClashDesktop/releases/download/updater/update-proxy.json"

/-- `tauri.updater.endpoints` from the Tauri configuration: the ordered
endpoint list, fixed at startup. -/
def updaterEndpoints : List String := [primaryEndpoint, mirrorEndpoint]

/-- `tauri.updater.pubkey` from the Tauri configuration: the process-wide
signature public key, loaded once at startup. -/
def SignaturePublicKey : String :=
  "dW50cnVzdGVkIGNvbW1lbnQ6IG1pbmlzaWduIHB1YmxpYyBrZXk6IDc2NkU3N0M4RjJDMTdGOEUKUldTT2Y4SHl5SGR1ZGl4Y3VTb1ZVWi8xL1VVbUQ2SVJsVkNvNDBJUitUVkFvVTdhVnl1U1lXQk8K"

/-! ## ManifestVerifier

Modelled from the spec: the updater implementation behind
`tauri.updater` is not among the shipped sources; §4.1 gives its contract
`verify(manifest_bytes, detached_signature, public_key)` over a
deterministic asymmetric signature scheme with a parse step preceding any
signature math. -/

/-- Modelled from the spec: an `UpdateManifest` — version string, artifact
URL, content hash (per-platform URL map collapsed to the one URL for the
running platform).  Immutable once fetched. -/
structure UpdateManifest where
  version : String
  artifactUrl : String
  contentHash : Nat
  deriving DecidableEq, Repr

/-- Modelled from the spec: errors of `ManifestVerifier.verify`. -/
inductive VerificationError where
  | BadSignature
  | Malformed
  deriving DecidableEq, Repr

/-- Decode a byte list as a string (model of UTF-8 text fields). -/
def decodeField (bs : List Nat) : String :=
  String.mk (bs.map (fun b => Char.ofNat (b % 256)))

/-- Modelled from the spec: parse the manifest wire form — a length-framed
encoding of the version identifier, the platform artifact URL and the
content hash.  Returns `none` on any malformed input. -/
def parseManifest (bytes : List Nat) : Option UpdateManifest :=
  match bytes with
  | vlen :: rest =>
    if vlen ≤ rest.length then
      let vbytes := rest.take vlen
      match rest.drop vlen with
      | ulen :: rest2 =>
        if ulen ≤ rest2.length then
          match rest2.drop ulen with
          | [h] => some ⟨decodeField vbytes, decodeField (rest2.take ulen), h⟩
          | _ => none
        else none
      | [] => none
    else none
  | [] => none

/-- Modelled from the spec: numeric digest of a public-key string, used by
the model signature scheme. -/
def keyVal (pk : String) : Nat :=
  pk.toList.foldl (fun a c => (a * 31 + c.toNat) % 256) 7

/-- Modelled from the spec: the deterministic detached signature the scheme
produces for a message under a key (Ed25519/minisign-style schemes are
deterministic; the model keeps only that shape). -/
def sigBytes (pk : String) (msg : List Nat) : List Nat :=
  (keyVal pk) :: msg.map (fun b => (b + keyVal pk) % 256)

/-- Modelled from the spec: `ManifestVerifier.verify` — parse first,
`Malformed` if the manifest cannot be parsed (malformed input never
reaches signature math), then compare the detached signature against the
scheme's expected signature, `BadSignature` on mismatch. -/
def verify (manifestBytes : List Nat) (sig : List Nat) (pk : String) :
    Except VerificationError UpdateManifest :=
  match parseManifest manifestBytes with
  | none => .error .Malformed
  | some m => if sig = sigBytes pk manifestBytes then .ok m else .error .BadSignature

/-! ## ArtifactFetcher

Modelled from the spec (§4.4): `fetch(url_list, expected_hash)` tries
endpoints strictly in listed order; non-2xx, truncated transfer and hash
mismatch each advance to the next endpoint; `AllEndpointsExhausted` when
none succeeds. -/

/-- Modelled from the spec: what one endpoint yields when tried — a
complete 2xx payload, a non-2xx status, or a truncated transfer. -/
inductive EndpointResult where
  | ok (payload : List Nat)
  | httpError (status : Nat)
  | truncated (got : List Nat)
  deriving DecidableEq, Repr

/-- Modelled from the spec: `FetchError`. -/
inductive FetchError where
  | AllEndpointsExhausted
  deriving DecidableEq, Repr

/-- Modelled from the spec: content hash of a payload (stands in for the
manifest's content-hash function). -/
def hashOf (payload : List Nat) : Nat :=
  payload.foldl (fun a b => (a * 131 + b) % 1000000007) 1

/-- An endpoint attempt succeeds when it returns a complete response whose
hash matches the expected hash. -/
def succeedsAt (respond : String → EndpointResult) (expectedHash : Nat)
    (u : String) : Bool :=
  match respond u with
  | .ok p => hashOf p = expectedHash
  | _ => false

/-- Modelled from the spec: `ArtifactFetcher.fetch`, instrumented with the
list of endpoints attempted (in order).  `respond` is the network
environment: what each endpoint would yield if tried. -/
def fetchTrace (respond : String → EndpointResult) (expectedHash : Nat) :
    List String → List String × Except FetchError (List Nat)
  | [] => ([], .error .AllEndpointsExhausted)
  | u :: rest =>
    match respond u with
    | .ok p =>
      if hashOf p = expectedHash then ([u], .ok p)
      else
        let r := fetchTrace respond expectedHash rest
        (u :: r.1, r.2)
    | _ =>
      let r := fetchTrace respond expectedHash rest
      (u :: r.1, r.2)

/-- `ArtifactFetcher.fetch` itself: the result without the instrumentation. -/
def fetch (respond : String → EndpointResult) (expectedHash : Nat)
    (urls : List String) : Except FetchError (List Nat) :=
  (fetchTrace respond expectedHash urls).2

/-! ## Version comparison

Modelled from the spec (§4.5): compare the manifest version against the
running application version; any comparison ambiguity is treated as "no
update available", never as "force update". -/

/-- Split a character list on dots. -/
def splitDots : List Char → List (List Char)
  | [] => [[]]
  | c :: rest =>
    if c = '.' then [] :: splitDots rest
    else
      match splitDots rest with
      | [] => [[c]]
      | p :: ps => (c :: p) :: ps

/-- Parse one version component: a nonempty digit string. -/
def parseComponent (cs : List Char) : Option Nat :=
  if cs = [] then none
  else if cs.all Char.isDigit then
    some (cs.foldl (fun a c => a * 10 + (c.toNat - 48)) 0)
  else none

/-- Parse a dotted version string into its numeric components; `none` on
any non-numeric or empty component (the ambiguous case). -/
def parseVersion (s : String) : Option (List Nat) :=
  (splitDots s.toList).mapM parseComponent

/-- Lexicographic strict order on version component lists. -/
def versionLt : List Nat → List Nat → Bool
  | [], [] => false
  | [], _ :: _ => true
  | _ :: _, [] => false
  | a :: as, b :: bs => if a < b then true else if b < a then false else versionLt as bs

/-- Modelled from the spec: is the manifest version strictly newer than the
running version?  `none` when the comparison is ambiguous. -/
def versionNewer (manifestVer currentVer : String) : Option Bool :=
  match parseVersion manifestVer, parseVersion currentVer with
  | some m, some c => some (versionLt c m)
  | _, _ => none

/-! ## UpdateCoordinator

Modelled from the spec (§4.5, §6): orchestrates fetch manifest → verify →
compare version → download artifact → stage, as a step machine driven by
GUI/timer inputs, emitting progress events.  The implementation behind
`updater.check()` is not among the shipped sources. -/

/-- Modelled from the spec: coordinator states.  The states after
verification carry the raw manifest bytes and detached signature the
manifest was verified from, so the pipeline invariant can refer to them. -/
inductive CoordState where
  | idle
  | checking
  | verified (mb sig : List Nat) (m : UpdateManifest)
  | downloading (mb sig : List Nat) (m : UpdateManifest)
  | staged (m : UpdateManifest) (artifact : List Nat)
  | failed
  deriving DecidableEq, Repr

/-- Modelled from the spec: coordinator inputs — a check request delivering
the fetched manifest bytes and signature, the go-ahead after version
comparison, completion or failure of the artifact download, and a
no-manifest-reachable outcome. -/
inductive CoordInput where
  | checkRequest (mb sig : List Nat)
  | checkUnreachable
  | proceed
  | downloadDone (artifact : List Nat)
  | downloadFailed
  deriving DecidableEq, Repr

/-- Modelled from the spec: events the coordinator emits to the GUI.
`downloadArtifact` records the manifest bytes and signature of the
manifest whose artifact is being fetched. -/
inductive CoordEvent where
  | checking
  | downloadArtifact (mb sig : List Nat) (m : UpdateManifest)
  | updateAvailable (version : String)
  | updateUpToDate
  | updateFailed
  | stagedEvt (m : UpdateManifest)
  deriving DecidableEq, Repr

/-- Modelled from the spec: one step of the UpdateCoordinator.  On a check
request the manifest is verified against the process-wide
`SignaturePublicKey`; only a successfully verified manifest whose version
is strictly newer than `packageVersion` reaches the download trigger;
equal or ambiguous comparisons emit `updateUpToDate` and download
nothing. -/
def coordStep : CoordState → CoordInput → CoordState × List CoordEvent
  | .idle, .checkRequest mb sig =>
    match verify mb sig SignaturePublicKey with
    | .error _ => (.failed, [.checking, .updateFailed])
    | .ok m =>
      match versionNewer m.version packageVersion with
      | some true => (.verified mb sig m, [.checking, .updateAvailable m.version])
      | _ => (.idle, [.checking, .updateUpToDate])
  | .idle, .checkUnreachable => (.failed, [.checking, .updateFailed])
  | .verified mb sig m, .proceed =>
    (.downloading mb sig m, [.downloadArtifact mb sig m])
  | .downloading _ _ m, .downloadDone artifact =>
    (.staged m artifact, [.stagedEvt m])
  | .downloading _ _ _, .downloadFailed => (.failed, [.updateFailed])
  | s, _ => (s, [])

/-- Run the coordinator over a list of inputs, collecting emitted events. -/
def coordRun (s : CoordState) : List CoordInput → CoordState × List CoordEvent
  | [] => (s, [])
  | i :: rest =>
    let r := coordStep s i
    let r2 := coordRun r.1 rest
    (r2.1, r.2 ++ r2.2)

/-- The pipeline invariant on coordinator states: any state that carries a
manifest past the verification stage carries one that verified
successfully against `SignaturePublicKey`. -/
def CoordInv : CoordState → Prop
  | .verified mb sig m => verify mb sig SignaturePublicKey = .ok m
  | .downloading mb sig m => verify mb sig SignaturePublicKey = .ok m
  | _ => True

/-! ## ProcessSupervisor

Modelled from the spec (§4.2): a state machine over `ProcessState` whose
transitions are serialized through a single-owner FIFO queue; the
supervisor implementation is not among the shipped sources. -/

/-- Modelled from the spec: `ProcessState`. -/
inductive ProcessState where
  | Stopped
  | Starting
  | Running
  | Restarting
  | Stopping
  | Crashed (exitCode : Int)
  deriving DecidableEq, Repr

/-- Modelled from the spec: the declared transition relation of §4.2.
`Stopped → Running` without an intervening `Starting` is not among them. -/
def validTransition : ProcessState → ProcessState → Bool
  | .Stopped, .Starting => true
  | .Starting, .Running => true
  | .Starting, .Crashed _ => true
  | .Running, .Restarting => true
  | .Running, .Crashed _ => true
  | .Restarting, .Stopping => true
  | .Stopping, .Stopped => true
  | .Crashed _, .Starting => true
  | .Running, .Stopping => true
  | .Starting, .Stopping => true
  | .Crashed _, .Stopping => true
  | _, _ => false

/-- A list of states is a valid path from `s` when every consecutive pair
is a declared transition. -/
def validPath (s : ProcessState) : List ProcessState → Bool
  | [] => true
  | t :: rest => validTransition s t && validPath t rest

/-- Modelled from the spec: supervisor requests from the GUI. -/
inductive Request where
  | start
  | stop
  | applyConfig
  deriving DecidableEq, Repr

/-- Modelled from the spec: the environment outcome for one request —
whether the handshake after spawn succeeds (else the recorded crash exit
code), and whether a running process accepts a hot reload. -/
structure ReqEnv where
  handshakeOk : Bool
  crashCode : Int
  hotReloadOk : Bool
  deriving DecidableEq, Repr

/-- The state sequence emitted by a spawn attempt from a state that may
legally enter `Starting`. -/
def spawnStates (e : ReqEnv) : List ProcessState :=
  if e.handshakeOk then [.Starting, .Running] else [.Starting, .Crashed e.crashCode]

/-- Modelled from the spec: execute one dequeued request against the
current state, returning the emitted state-change sequence (the new
current state is its last element, or the old state if nothing changed).
`start` acts only from `Stopped`; `stop` is a no-op on a stopped or
already-stopping process and otherwise runs `Stopping → Stopped`; `applyConfig` on `Stopped`
starts, on `Running` hot-reloads when possible and otherwise restarts
(`Restarting`, stop, then start); elsewhere requests are absorbed by the
queue as no-ops. -/
def execRequest (s : ProcessState) (r : Request) (e : ReqEnv) :
    List ProcessState :=
  match r, s with
  | .start, .Stopped => spawnStates e
  | .start, _ => []
  | .stop, .Stopped => []
  | .stop, .Stopping => []
  | .stop, _ => [.Stopping, .Stopped]
  | .applyConfig, .Stopped => spawnStates e
  | .applyConfig, .Running =>
    if e.hotReloadOk then []
    else [.Restarting, .Stopping, .Stopped] ++ spawnStates e
  | .applyConfig, _ => []

/-- The state after executing one request. -/
def afterRequest (s : ProcessState) (r : Request) (e : ReqEnv) : ProcessState :=
  (execRequest s r e).getLastD s

/-- Modelled from the spec: the supervisor's serialized transition queue —
requests are dequeued and executed strictly in arrival order, one at a
time; the run returns the order in which requests were executed and the
concatenated emitted state sequence. -/
def supRun (s : ProcessState) :
    List (Request × ReqEnv) → List Request × List ProcessState
  | [] => ([], [])
  | (r, e) :: rest =>
    let emitted := execRequest s r e
    let tail := supRun (afterRequest s r e) rest
    (r :: tail.1, emitted ++ tail.2)

/-! ## Crash recovery and heartbeats

Modelled from the spec (§4.2, §4.3): a crash (or a heartbeat miss beyond
the timeout) drives one `Crashed` transition and at most N automatic
restart attempts with exponential backoff (1s, 2s, 4s, ... capped at
30s); after N consecutive failures, exactly one fatal event and no
further attempts. -/

/-- Modelled from the spec: backoff delay (in seconds) before restart
attempt number `k` (counting from 0): `2 ^ k` capped at 30. -/
def backoffDelay (k : Nat) : Nat := min (2 ^ k) 30

/-- Modelled from the spec: crash-recovery events. -/
inductive SupEvent where
  | crashed (exitCode : Int)
  | restartAttempt (k delaySec : Nat)
  | fatal
  deriving DecidableEq, Repr

/-- Modelled from the spec: the restart loop with `n` attempts remaining,
next attempt number `k`.  Each attempt waits `backoffDelay k` and is then
tried; a success ends the loop, a failure continues; when the budget is
exhausted, exactly one fatal event is emitted. -/
def restartAttempts (succeeds : Nat → Bool) : Nat → Nat → List SupEvent
  | 0, _ => [.fatal]
  | n + 1, k =>
    .restartAttempt k (backoffDelay k) ::
      (if succeeds k then [] else restartAttempts succeeds n (k + 1))

/-- Modelled from the spec: the full reaction to one crash — exactly one
`crashed` event, then the restart loop with budget `N` starting at
attempt 0. -/
def onCrash (N : Nat) (succeeds : Nat → Bool) (exitCode : Int) :
    List SupEvent :=
  .crashed exitCode :: restartAttempts succeeds N 0

/-- Is this event a `Crashed` transition? -/
def isCrashedEvt : SupEvent → Bool
  | .crashed _ => true
  | _ => false

/-- Is this event a restart attempt? -/
def isAttemptEvt : SupEvent → Bool
  | .restartAttempt _ _ => true
  | _ => false

/-- Modelled from the spec: the heartbeat monitor over the observed gaps
(in seconds) between consecutive heartbeats: the first gap beyond the
timeout is treated as process death and drives a single `Crashed`
transition, after which monitoring of this handle stops. -/
def heartbeatMonitor (timeout : Nat) : List Nat → List SupEvent
  | [] => []
  | gap :: rest =>
    if timeout < gap then [.crashed (-1)] else heartbeatMonitor timeout rest

/-! ## Cancellation of an in-progress fetch

Modelled from the spec (§5, §4.4): cancellation propagates to the active
fetch, aborts the transfer, deletes the partial temp file and emits a
cancelled event — never a failed event. -/

/-- Modelled from the spec: events of a cancellable download. -/
inductive DlEvent where
  | progress (bytes : Nat)
  | stagedOk
  | cancelled
  | failedEvt
  deriving DecidableEq, Repr

/-- Modelled from the spec: a cancellable streaming download.  The payload
arrives as `chunks`, appended to a temporary file; `cancelAt = some i`
cancels before the i-th remaining chunk: the transfer aborts, the partial
temp file is deleted and one cancelled event is emitted.  The first
component of the result is the temp file left on disk (`none` = no file). -/
def runFetchCancel : Option Nat → List (List Nat) → List Nat →
    Option (List Nat) × List DlEvent
  | some 0, _, _ => (none, [.cancelled])
  | _, [], acc => (some acc, [.stagedOk])
  | ca, c :: rest, acc =>
    let r := runFetchCancel (ca.map (fun n => n - 1)) rest (acc ++ c)
    (r.1, .progress (acc.length + c.length) :: r.2)

/-! ## Application bootstrap, embedded from `src/src/main.tsx` -/

/-- `mainElementId` from `src/src/main.tsx`. -/
def mainElementId : String := "root"

/-- The DOM as visible to the bootstrap: the elements of the document,
each with its id (a node is modelled by a numeric handle). -/
structure DomDocument where
  elements : List (String × Nat)
  deriving DecidableEq, Repr

/-- `document.getElementById`: the first element with the given id. -/
def getElementById (d : DomDocument) (i : String) : Option Nat :=
  (d.elements.find? (fun e => e.1 = i)).map (fun e => e.2)

/-- The bootstrap of `src/src/main.tsx`: look up the container by
`mainElementId`; if absent, throw an `Error` naming that id and render
nothing; otherwise render the application tree into the container.  The
second component lists the containers rendered into, in order. -/
def bootstrap (d : DomDocument) : Except String Nat × List Nat :=
  match getElementById d mainElementId with
  | none =>
    (.error ("No container \x27" ++ mainElementId ++ "\x27 found to render application"), [])
  | some c => (.ok c, [c])

/-! ## Helper lemmas -/

/-- Updating a list at a valid index with a value different from the one
stored there yields a different list. -/
theorem set_ne_self_of_ne {α : Type} (l : List α) (i : Nat) (v : α)
    (hi : i < l.length) (hv : v ≠ l.get ⟨i, hi⟩) : l.set i v ≠ l := by
  intro he
  apply hv
  have h1 : (l.set i v)[i]? = some v := List.getElem?_set_eq_of_lt v hi
  rw [he, List.getElem?_eq_getElem hi] at h1
  simpa using h1.symm

/-- The endpoints attempted by a fetch form a prefix of the endpoint list:
they are tried strictly in listed order, each at most once. -/
theorem fetchTrace_attempts_sub (respond : String → EndpointResult) (h : Nat) :
    ∀ urls : List String, (fetchTrace respond h urls).1 <+: urls := by
  intro urls
  induction urls with
  | nil => exact ⟨[], rfl⟩
  | cons u rest ih =>
    obtain ⟨t, ht⟩ := ih
    cases hr : respond u with
    | ok p =>
      by_cases hh : hashOf p = h
      · exact ⟨rest, by simp [fetchTrace, hr, hh]⟩
      · exact ⟨t, by simp [fetchTrace, hr, hh, ht]⟩
    | httpError s => exact ⟨t, by simp [fetchTrace, hr, ht]⟩
    | truncated g => exact ⟨t, by simp [fetchTrace, hr, ht]⟩

/-- When a fetch succeeds, the attempted endpoints are the failing ones
followed by the endpoint that produced the returned, hash-matching
payload. -/
theorem fetchTrace_first_success (respond : String → EndpointResult) (h : Nat) :
    ∀ (urls : List String) (p : List Nat), (fetchTrace respond h urls).2 = .ok p →
      ∃ pre u, (fetchTrace respond h urls).1 = pre ++ [u] ∧
        respond u = .ok p ∧ hashOf p = h ∧
        ∀ v ∈ pre, succeedsAt respond h v = false := by
  intro urls
  induction urls with
  | nil => intro p hp; simp [fetchTrace] at hp
  | cons u rest ih =>
    intro p hp
    cases hr : respond u with
    | ok q =>
      by_cases hh : hashOf q = h
      · have hq : q = p := by simpa [fetchTrace, hr, hh] using hp
        subst hq
        exact ⟨[], u, by simp [fetchTrace, hr, hh], hr, hh, by simp⟩
      · have hp2 : (fetchTrace respond h rest).2 = .ok p := by
          simpa [fetchTrace, hr, hh] using hp
        obtain ⟨pre, w, hw1, hw2, hw3, hw4⟩ := ih p hp2
        refine ⟨u :: pre, w, by simp [fetchTrace, hr, hh, hw1], hw2, hw3, ?_⟩
        intro v hv
        rcases List.mem_cons.mp hv with hv | hv
        · subst hv; simp [succeedsAt, hr, hh]
        · exact hw4 v hv
    | httpError s =>
      have hp2 : (fetchTrace respond h rest).2 = .ok p := by
        simpa [fetchTrace, hr] using hp
      obtain ⟨pre, w, hw1, hw2, hw3, hw4⟩ := ih p hp2
      refine ⟨u :: pre, w, by simp [fetchTrace, hr, hw1], hw2, hw3, ?_⟩
      intro v hv
      rcases List.mem_cons.mp hv with hv | hv
      · subst hv; simp [succeedsAt, hr]
      · exact hw4 v hv
    | truncated g =>
      have hp2 : (fetchTrace respond h rest).2 = .ok p := by
        simpa [fetchTrace, hr] using hp
      obtain ⟨pre, w, hw1, hw2, hw3, hw4⟩ := ih p hp2
      refine ⟨u :: pre, w, by simp [fetchTrace, hr, hw1], hw2, hw3, ?_⟩
      intro v hv
      rcases List.mem_cons.mp hv with hv | hv
      · subst hv; simp [succeedsAt, hr]
      · exact hw4 v hv

/-- When no endpoint succeeds, every endpoint is attempted exactly once and
the fetch fails with `AllEndpointsExhausted`. -/
theorem fetchTrace_exhausted (respond : String → EndpointResult) (h : Nat) :
    ∀ urls : List String, (∀ u ∈ urls, succeedsAt respond h u = false) →
      fetchTrace respond h urls = (urls, .error .AllEndpointsExhausted) := by
  intro urls
  induction urls with
  | nil => intro _; simp [fetchTrace]
  | cons u rest ih =>
    intro hall
    have hu := hall u (by simp)
    have hrest : ∀ v ∈ rest, succeedsAt respond h v = false :=
      fun v hv => hall v (by simp [hv])
    cases hr : respond u with
    | ok p =>
      have hh : ¬ hashOf p = h := by
        intro he
        rw [succeedsAt, hr] at hu
        simp [he] at hu
      simp [fetchTrace, hr, hh, ih hrest]
    | httpError s => simp [fetchTrace, hr, ih hrest]
    | truncated g => simp [fetchTrace, hr, ih hrest]

/-- The restart loop never emits a `Crashed` transition of its own. -/
theorem restartAttempts_no_crashed (succeeds : Nat → Bool) :
    ∀ n k, (restartAttempts succeeds n k).countP isCrashedEvt = 0 := by
  intro n
  induction n with
  | zero => intro k; simp [restartAttempts, isCrashedEvt]
  | succ n ih =>
    intro k
    by_cases hs : succeeds k = true <;>
      simp [restartAttempts, isCrashedEvt, hs, ih (k + 1)]

/-- The restart loop makes at most as many attempts as its budget. -/
theorem restartAttempts_budget (succeeds : Nat → Bool) :
    ∀ n k, (restartAttempts succeeds n k).countP isAttemptEvt ≤ n := by
  intro n
  induction n with
  | zero => intro k; simp [restartAttempts, isAttemptEvt]
  | succ n ih =>
    intro k
    by_cases hs : succeeds k = true
    · simp [restartAttempts, isAttemptEvt, hs]
    · simp only [restartAttempts, hs, if_false, List.countP_cons]
      have := ih (k + 1)
      simp [isAttemptEvt]
      omega

/-- Every attempt emitted by the restart loop waits the exponential
backoff delay for its attempt number. -/
theorem restartAttempts_delay (succeeds : Nat → Bool) :
    ∀ n k j d, SupEvent.restartAttempt j d ∈ restartAttempts succeeds n k →
      d = backoffDelay j := by
  intro n
  induction n with
  | zero => intro k j d hm; simp [restartAttempts] at hm
  | succ n ih =>
    intro k j d hm
    by_cases hs : succeeds k = true
    · simp [restartAttempts, hs] at hm
      rw [hm.2, hm.1]
    · simp [restartAttempts, hs] at hm
      rcases hm with ⟨hj, hd⟩ | hm
      · rw [hd, hj]
      · exact ih (k + 1) j d hm

/-- When every attempt fails, the restart loop is exactly the attempts
numbered `k, k+1, ..., k+n-1` with their backoff delays, closed by a
single fatal event. -/
theorem restartAttempts_all_fail (succeeds : Nat → Bool) :
    ∀ n k, (∀ j, j < n → succeeds (k + j) = false) →
      restartAttempts succeeds n k =
        (List.range' k n).map (fun j => .restartAttempt j (backoffDelay j)) ++
          [SupEvent.fatal] := by
  intro n
  induction n with
  | zero => intro k _; simp [restartAttempts]
  | succ n ih =>
    intro k hall
    have h0 : succeeds k = false := by simpa using hall 0 (Nat.succ_pos n)
    have hrest : ∀ j, j < n → succeeds (k + 1 + j) = false := by
      intro j hj
      have := hall (j + 1) (by omega)
      simpa [Nat.add_assoc, Nat.add_comm 1 j] using this
    rw [List.range'_succ]
    simp [restartAttempts, h0, ih (k + 1) hrest]

/-- The restart loop ends in a fatal event exactly when every attempt in
its budget fails. -/
theorem restartAttempts_fatal_iff (succeeds : Nat → Bool) :
    ∀ n k, SupEvent.fatal ∈ restartAttempts succeeds n k ↔
      ∀ j, j < n → succeeds (k + j) = false := by
  intro n
  induction n with
  | zero => intro k; simp [restartAttempts]
  | succ n ih =>
    intro k
    by_cases hs : succeeds k = true
    · simp only [restartAttempts, hs, if_true]
      constructor
      · intro hm; simp at hm
      · intro hall
        have := hall 0 (Nat.succ_pos n)
        simp [hs] at this
    · simp only [restartAttempts, hs, if_false]
      rw [List.mem_cons]
      constructor
      · intro hm
        rcases hm with hm | hm
        · exact absurd hm (by simp)
        · intro j hj
          rcases Nat.eq_zero_or_pos j with hj0 | hj0
          · subst hj0; simpa using (Bool.not_eq_true _).mp hs
          · obtain ⟨j2, rfl⟩ := Nat.exists_eq_add_of_lt hj0
            have := (ih (k + 1)).mp hm j2 (by omega)
            simpa [Nat.add_comm, Nat.add_assoc, Nat.add_left_comm] using this
      · intro hall
        right
        refine (ih (k + 1)).mpr (fun j hj => ?_)
        have := hall (j + 1) (by omega)
        simpa [Nat.add_assoc, Nat.add_comm 1 j] using this

/-- The restart loop emits at most one fatal event, and nothing follows
it. -/
theorem restartAttempts_fatal_last (succeeds : Nat → Bool) :
    ∀ n k, (restartAttempts succeeds n k).countP
        (fun e => decide (e = SupEvent.fatal)) ≤ 1 ∧
      ∀ l₁ l₂, restartAttempts succeeds n k = l₁ ++ SupEvent.fatal :: l₂ →
        l₂ = [] := by
  intro n
  induction n with
  | zero =>
    intro k
    refine ⟨by simp [restartAttempts], fun l₁ l₂ he => ?_⟩
    rw [restartAttempts] at he
    cases l₁ with
    | nil => simpa using congrArg List.tail he
    | cons a l₁ =>
      have := congrArg List.length he
      simp at this
  | succ n ih =>
    intro k
    by_cases hs : succeeds k = true
    · refine ⟨by simp [restartAttempts, hs], fun l₁ l₂ he => ?_⟩
      rw [restartAttempts] at he
      simp only [hs, if_true] at he
      cases l₁ with
      | nil => simp at he
      | cons a l₁ =>
        rw [List.cons_append] at he
        have := (List.cons.injEq _ _ _ _).mp he
        have h2 := this.2
        exact absurd h2.symm (by simp)
    · refine ⟨?_, fun l₁ l₂ he => ?_⟩
      · simp only [restartAttempts, hs, if_false, List.countP_cons]
        have := (ih (k + 1)).1
        simp
        omega
      · rw [restartAttempts] at he
        simp only [hs, if_false] at he
        cases l₁ with
        | nil =>
          have := (List.cons.injEq _ _ _ _).mp he
          exact absurd this.1.symm (by simp)
        | cons a l₁ =>
          rw [List.cons_append] at he
          have := (List.cons.injEq _ _ _ _).mp he
          exact (ih (k + 1)).2 l₁ l₂ this.2

/-- The heartbeat monitor emits at most one `Crashed` transition, and
exactly one as soon as some gap exceeds the timeout. -/
theorem heartbeatMonitor_single_crash (timeout : Nat) :
    ∀ gaps : List Nat,
      (heartbeatMonitor timeout gaps).countP isCrashedEvt ≤ 1 ∧
      ((∃ g ∈ gaps, timeout < g) →
        (heartbeatMonitor timeout gaps).countP isCrashedEvt = 1) := by
  intro gaps
  induction gaps with
  | nil => exact ⟨by simp [heartbeatMonitor], by simp⟩
  | cons g rest ih =>
    by_cases hg : timeout < g
    · exact ⟨by simp [heartbeatMonitor, hg, isCrashedEvt],
        fun _ => by simp [heartbeatMonitor, hg, isCrashedEvt]⟩
    · refine ⟨by simpa [heartbeatMonitor, hg] using ih.1, fun hex => ?_⟩
      rcases hex with ⟨g2, hg2, hgt⟩
      rcases List.mem_cons.mp hg2 with rfl | hg2
      · exact absurd hgt hg
      · simpa [heartbeatMonitor, hg] using ih.2 ⟨g2, hg2, hgt⟩

/-- `versionLt` is irreflexive. -/
theorem versionLt_irrefl : ∀ a : List Nat, versionLt a a = false := by
  intro a
  induction a with
  | nil => rfl
  | cons x xs ih => simp [versionLt, ih, Nat.lt_irrefl]

/-- One coordinator step preserves the pipeline invariant. -/
theorem coordStep_preserves_inv (s : CoordState) (i : CoordInput)
    (h : CoordInv s) : CoordInv (coordStep s i).1 := by
  cases s with
  | idle =>
    cases i with
    | checkRequest mb sig =>
      cases hv : verify mb sig SignaturePublicKey with
      | error e => simp [coordStep, hv, CoordInv]
      | ok m =>
        cases hn : versionNewer m.version packageVersion with
        | none => simp [coordStep, hv, hn, CoordInv]
        | some b =>
          cases b with
          | false => simp [coordStep, hv, hn, CoordInv]
          | true => simp [coordStep, hv, hn, CoordInv]
    | checkUnreachable => simp [coordStep, CoordInv]
    | proceed => simp [coordStep, CoordInv]
    | downloadDone a => simp [coordStep, CoordInv]
    | downloadFailed => simp [coordStep, CoordInv]
  | checking => cases i <;> simp [coordStep, CoordInv]
  | verified mb sig m =>
    cases i with
    | proceed => simpa [coordStep, CoordInv] using h
    | checkRequest mb2 sig2 => simpa [coordStep, CoordInv] using h
    | checkUnreachable => simpa [coordStep, CoordInv] using h
    | downloadDone a => simpa [coordStep, CoordInv] using h
    | downloadFailed => simpa [coordStep, CoordInv] using h
  | downloading mb sig m =>
    cases i <;> simp_all [coordStep, CoordInv]
  | staged m a => cases i <;> simp [coordStep, CoordInv]
  | failed => cases i <;> simp [coordStep, CoordInv]

/-- A download is only triggered by a step whose state satisfies the
invariant, for the manifest that verified. -/
theorem coordStep_download_verified (s : CoordState) (i : CoordInput)
    (mb sig : List Nat) (m : UpdateManifest) (h : CoordInv s)
    (hm : CoordEvent.downloadArtifact mb sig m ∈ (coordStep s i).2) :
    verify mb sig SignaturePublicKey = .ok m := by
  cases s with
  | idle =>
    cases i with
    | checkRequest mb2 sig2 =>
      cases hv : verify mb2 sig2 SignaturePublicKey with
      | error e => simp [coordStep, hv] at hm
      | ok m2 =>
        cases hn : versionNewer m2.version packageVersion with
        | none => simp [coordStep, hv, hn] at hm
        | some b =>
          cases b with
          | false => simp [coordStep, hv, hn] at hm
          | true => simp [coordStep, hv, hn] at hm
    | checkUnreachable => simp [coordStep] at hm
    | proceed => simp [coordStep] at hm
    | downloadDone a => simp [coordStep] at hm
    | downloadFailed => simp [coordStep] at hm
  | checking => cases i <;> simp [coordStep] at hm
  | verified mb2 sig2 m2 =>
    cases i with
    | proceed =>
      simp [coordStep] at hm
      obtain ⟨rfl, rfl, rfl⟩ := hm
      exact h
    | checkRequest mb3 sig3 => simp [coordStep] at hm
    | checkUnreachable => simp [coordStep] at hm
    | downloadDone a => simp [coordStep] at hm
    | downloadFailed => simp [coordStep] at hm
  | downloading mb2 sig2 m2 =>
    cases i <;> simp [coordStep] at hm
  | staged m2 a => cases i <;> simp [coordStep] at hm
  | failed => cases i <;> simp [coordStep] at hm

/-- Over any run from a state satisfying the invariant, every download
event names a manifest that verified against `SignaturePublicKey`. -/
theorem coordRun_download_verified :
    ∀ (inputs : List CoordInput) (s : CoordState), CoordInv s →
      ∀ (mb sig : List Nat) (m : UpdateManifest),
        CoordEvent.downloadArtifact mb sig m ∈ (coordRun s inputs).2 →
        verify mb sig SignaturePublicKey = .ok m := by
  intro inputs
  induction inputs with
  | nil => intro s _ mb sig m hm; simp [coordRun] at hm
  | cons i rest ih =>
    intro s hs mb sig m hm
    rw [coordRun] at hm
    rcases List.mem_append.mp hm with hm | hm
    · exact coordStep_download_verified s i mb sig m hs hm
    · exact ih (coordStep s i).1 (coordStep_preserves_inv s i hs) mb sig m hm

/-- Appending paths: a concatenation is valid exactly when the first part
is valid from the start state and the second from where the first ends. -/
theorem validPath_append (l₁ l₂ : List ProcessState) :
    ∀ s, validPath s (l₁ ++ l₂) =
      (validPath s l₁ && validPath (l₁.getLastD s) l₂) := by
  induction l₁ with
  | nil => intro s; simp [validPath]
  | cons t rest ih =>
    intro s
    show (validTransition s t && validPath t (rest ++ l₂)) =
      ((validTransition s t && validPath t rest) && validPath ((t :: rest).getLastD s) l₂)
    rw [List.getLastD_cons, ih t, Bool.and_assoc]

/-- Each single request, executed from any state, emits a valid path. -/
theorem execRequest_valid (s : ProcessState) (r : Request) (e : ReqEnv) :
    validPath s (execRequest s r e) = true := by
  rcases e with ⟨hs, cc, hr⟩
  cases r <;> cases s <;> cases hs <;> cases hr <;>
    simp [execRequest, spawnStates, validPath, validTransition]

/-- A valid path never contains `Stopped` immediately followed by
`Running`. -/
theorem validPath_no_stopped_running (l : List ProcessState) :
    ∀ s, validPath s l = true →
      ∀ pre rest, l ≠ pre ++ ProcessState.Stopped :: ProcessState.Running :: rest := by
  induction l with
  | nil =>
    intro s _ pre rest he
    cases pre <;> simp at he
  | cons t l ih =>
    intro s hv pre rest he
    rw [validPath, Bool.and_eq_true] at hv
    cases pre with
    | nil =>
      simp at he
      obtain ⟨rfl, rfl⟩ := he
      rw [validPath, Bool.and_eq_true] at hv
      simpa [validTransition] using hv.2.1
    | cons a pre =>
      simp at he
      exact ih t hv.2 pre rest he.2

/-! ## Claim theorems -/

/-- C1: in every run of the update pipeline from the idle state, an
artifact download is triggered only for a manifest whose detached
signature verified successfully against the process-wide
`SignaturePublicKey`: every download event in the emitted event stream
names a manifest, manifest bytes and signature for which `verify`
returned success. -/
theorem pipeline_downloads_only_verified (inputs : List CoordInput)
    (mb sig : List Nat) (m : UpdateManifest)
    (hm : CoordEvent.downloadArtifact mb sig m ∈ (coordRun .idle inputs).2) :
    verify mb sig SignaturePublicKey = .ok m :=
  coordRun_download_verified inputs .idle trivial mb sig m hm

set_option maxRecDepth 10000 in
/-- Witness for C1: a run that checks a signed newer manifest and proceeds
triggers its download, and that manifest indeed verifies. -/
theorem pipeline_downloads_only_verified_witness :
    verify [6, 49, 51, 46, 49, 46, 54, 0, 99]
      (sigBytes SignaturePublicKey [6, 49, 51, 46, 49, 46, 54, 0, 99])
      SignaturePublicKey = .ok ⟨"13.1.6", "", 99⟩ :=
  pipeline_downloads_only_verified
    [.checkRequest [6, 49, 51, 46, 49, 46, 54, 0, 99]
      (sigBytes SignaturePublicKey [6, 49, 51, 46, 49, 46, 54, 0, 99]),
     .proceed]
    [6, 49, 51, 46, 49, 46, 54, 0, 99]
    (sigBytes SignaturePublicKey [6, 49, 51, 46, 49, 46, 54, 0, 99])
    ⟨"13.1.6", "", 99⟩ (by decide)

/-- C2: `ArtifactFetcher.fetch` tries endpoints strictly in listed order
(the attempted endpoints form a prefix of the list, hence none is tried
twice when the list has no duplicates); it returns the payload of the
first endpoint that yields a complete, hash-matching response, every
earlier attempt having failed (non-2xx, truncated or hash-mismatching);
and when every endpoint fails it returns
`FetchError.AllEndpointsExhausted`. -/
theorem fetch_endpoint_order_first_success_exhaustion
    (respond : String → EndpointResult) (h : Nat) (urls : List String)
    (hnd : urls.Nodup) :
    (fetchTrace respond h urls).1 <+: urls ∧
    (fetchTrace respond h urls).1.Nodup ∧
    (∀ p, (fetchTrace respond h urls).2 = .ok p →
      ∃ pre u, (fetchTrace respond h urls).1 = pre ++ [u] ∧
        respond u = .ok p ∧ hashOf p = h ∧
        ∀ v ∈ pre, succeedsAt respond h v = false) ∧
    ((∀ u ∈ urls, succeedsAt respond h u = false) →
      fetch respond h urls = .error .AllEndpointsExhausted) := by
  have hpre := fetchTrace_attempts_sub respond h urls
  refine ⟨hpre, List.Nodup.sublist hpre.sublist hnd,
    fun p hp => fetchTrace_first_success respond h urls p hp, fun hall => ?_⟩
  unfold fetch
  rw [fetchTrace_exhausted respond h urls hall]

/-- Witness for C2: with endpoints `[bad1, bad2, good]` where only `good`
serves the artifact, the fetch attempts each endpoint once, in order, and
succeeds with the payload from `good`. -/
theorem fetch_endpoint_order_witness :
    (fetchTrace (fun u => if u = "good" then .ok [1, 2] else .httpError 404)
        (hashOf [1, 2]) ["bad1", "bad2", "good"]).1.Nodup ∧
    fetchTrace (fun u => if u = "good" then .ok [1, 2] else .httpError 404)
        (hashOf [1, 2]) ["bad1", "bad2", "good"] =
      (["bad1", "bad2", "good"], .ok [1, 2]) :=
  ⟨(fetch_endpoint_order_first_success_exhaustion
      (fun u => if u = "good" then .ok [1, 2] else .httpError 404)
      (hashOf [1, 2]) ["bad1", "bad2", "good"] (by decide)).2.1,
   by decide⟩

/-- C3: `ManifestVerifier.verify` is deterministic — identical inputs give
identical results — and for every manifest that verifies successfully
under some signature, changing any single byte of that signature makes
`verify` return `VerificationError.BadSignature`. -/
theorem verify_deterministic_and_signature_sensitive :
    (∀ (mb sig : List Nat) (pk : String), verify mb sig pk = verify mb sig pk) ∧
    (∀ (mb sig : List Nat) (pk : String) (m : UpdateManifest),
      verify mb sig pk = .ok m →
      ∀ (i : Nat) (v : Nat) (hi : i < sig.length), v ≠ sig.get ⟨i, hi⟩ →
        verify mb (sig.set i v) pk = .error .BadSignature) := by
  refine ⟨fun _ _ _ => rfl, fun mb sig pk m hok i v hi hv => ?_⟩
  cases hp : parseManifest mb with
  | none => simp [verify, hp] at hok
  | some m2 =>
    by_cases hs : sig = sigBytes pk mb
    · have hne : sig.set i v ≠ sigBytes pk mb := by
        rw [← hs]
        exact set_ne_self_of_ne sig i v hi hv
      simp [verify, hp, hne]
    · simp [verify, hp, hs] at hok

/-- Witness for C3: a concrete manifest that verifies under the key `k`,
whose signature with its first byte changed is rejected as
`BadSignature`. -/
theorem verify_signature_sensitive_witness :
    verify [0, 0, 42] (sigBytes "k" [0, 0, 42]) "k" =
      .ok ⟨"", "", 42⟩ ∧
    verify [0, 0, 42] ((sigBytes "k" [0, 0, 42]).set 0 0) "k" =
      .error .BadSignature :=
  ⟨by decide,
   verify_deterministic_and_signature_sensitive.2 [0, 0, 42]
     (sigBytes "k" [0, 0, 42]) "k" ⟨"", "", 42⟩ (by decide) 0 0 (by decide)
     (by decide)⟩

/-- C4: when the manifest bytes cannot be parsed, `verify` returns
`VerificationError.Malformed` and its result does not depend on the
signature or key at all (malformed input never reaches signature math);
`BadSignature` is returned exactly when the manifest parses and the
signature does not match. -/
theorem verify_malformed_before_signature (mb sig : List Nat) (pk : String) :
    (parseManifest mb = none →
      verify mb sig pk = .error .Malformed ∧
      ∀ (sig2 : List Nat) (pk2 : String), verify mb sig2 pk2 = verify mb sig pk) ∧
    (verify mb sig pk = .error .BadSignature ↔
      (∃ m, parseManifest mb = some m) ∧ sig ≠ sigBytes pk mb) := by
  constructor
  · intro hp
    exact ⟨by simp [verify, hp], fun sig2 pk2 => by simp [verify, hp]⟩
  · constructor
    · intro h
      cases hp : parseManifest mb with
      | none => simp [verify, hp] at h
      | some m =>
        by_cases hs : sig = sigBytes pk mb
        · simp [verify, hp, hs] at h
        · exact ⟨⟨m, rfl⟩, hs⟩
    · rintro ⟨⟨m, hp⟩, hs⟩
      simp [verify, hp, hs]

/-- Witness for C4: the empty byte sequence does not parse, and `verify`
returns `Malformed` on it. -/
theorem verify_malformed_witness :
    verify [] [1] "k" = .error .Malformed :=
  ((verify_malformed_before_signature [] [1] "k").1 rfl).1

/-- C9: the configured update endpoint list is the fixed two-element
ordered list from `tauri.updater.endpoints` — primary GitHub release URL
first, mirror URL second — and the fetcher tries it in order with first
success winning (a success at the primary endpoint ends the fetch with
its payload; whatever the network does, the attempted endpoints are an
order-preserving prefix of the configured list). -/
theorem updater_endpoints_config :
    updaterEndpoints.length = 2 ∧
    updaterEndpoints = [primaryEndpoint, mirrorEndpoint] ∧
    primaryEndpoint =
      "https://github.com/hiddify/HiddifyClashDesktop/releases/download/updater/update.json" ∧
    mirrorEndpoint =
      "https://hub.fastgit.xyz/hiddify/HiddifyClashDesktop/releases/download/updater/update-proxy.json" ∧
    (∀ (respond : String → EndpointResult) (h : Nat) (p : List Nat),
      respond primaryEndpoint = .ok p → hashOf p = h →
      fetch respond h updaterEndpoints = .ok p) ∧
    (∀ (respond : String → EndpointResult) (h : Nat),
      (fetchTrace respond h updaterEndpoints).1 <+: updaterEndpoints) := by
  refine ⟨rfl, rfl, rfl, rfl, fun respond h p hp hh => ?_,
    fun respond h => fetchTrace_attempts_sub respond h updaterEndpoints⟩
  simp [fetch, fetchTrace, updaterEndpoints, hp, hh]

/-- Witness for C9: a network where the primary endpoint serves the
artifact makes the fetch over the configured endpoint list succeed with
that payload. -/
theorem updater_endpoints_config_witness :
    fetch (fun u => if u = primaryEndpoint then .ok [9] else .httpError 500)
      (hashOf [9]) updaterEndpoints = .ok [9] :=
  updater_endpoints_config.2.2.2.2.1
    (fun u => if u = primaryEndpoint then .ok [9] else .httpError 500)
    (hashOf [9]) [9] (by simp) rfl

/-- C10: if the document has no element with id `root`, the bootstrap
throws an `Error` whose message names that id and renders nothing;
otherwise the application tree is rendered exactly once, into that
element. -/
theorem bootstrap_requires_container (d : DomDocument) :
    (getElementById d mainElementId = none →
      (bootstrap d).1 =
        .error ("No container \x27" ++ mainElementId ++ "\x27 found to render application") ∧
      (bootstrap d).2 = []) ∧
    (∀ c, getElementById d mainElementId = some c →
      (bootstrap d).1 = .ok c ∧ (bootstrap d).2 = [c]) ∧
    (∃ pre post,
      ("No container \x27" ++ mainElementId ++ "\x27 found to render application" : String) =
        pre ++ mainElementId ++ post) := by
  refine ⟨fun h => ?_, fun c h => ?_,
    ⟨"No container \x27", "\x27 found to render application", rfl⟩⟩
  · constructor <;> simp [bootstrap, h]
  · constructor <;> simp [bootstrap, h]

/-- C5: the supervisor executes requests strictly in FIFO order of arrival
(none dropped, none reordered), and the emitted state sequence is a valid
path through the declared state machine — in particular `Stopped` is
never followed directly by `Running` without an intervening `Starting`. -/
theorem supervisor_fifo_valid_path (s : ProcessState)
    (reqs : List (Request × ReqEnv)) :
    (supRun s reqs).1 = reqs.map Prod.fst ∧
    validPath s (supRun s reqs).2 = true ∧
    ∀ pre rest, (supRun s reqs).2 ≠
      pre ++ ProcessState.Stopped :: ProcessState.Running :: rest := by
  have hmain : ∀ (rs : List (Request × ReqEnv)) (st : ProcessState),
      (supRun st rs).1 = rs.map Prod.fst ∧
      validPath st (supRun st rs).2 = true := by
    intro rs
    induction rs with
    | nil => intro st; exact ⟨rfl, rfl⟩
    | cons re rest ih =>
      intro st
      rcases re with ⟨r, e⟩
      refine ⟨?_, ?_⟩
      · show r :: (supRun (afterRequest st r e) rest).1 = r :: rest.map Prod.fst
        rw [(ih (afterRequest st r e)).1]
      · show validPath st
          (execRequest st r e ++ (supRun (afterRequest st r e) rest).2) = true
        rw [validPath_append]
        rw [execRequest_valid st r e]
        rw [show (execRequest st r e).getLastD st = afterRequest st r e from rfl]
        rw [(ih (afterRequest st r e)).2]
        rfl
  exact ⟨(hmain reqs s).1, (hmain reqs s).2,
    validPath_no_stopped_running (supRun s reqs).2 s (hmain reqs s).2⟩

/-- Witness for C5: a start, a non-hot-reloadable config application and a
stop, issued in that order, execute in that order and emit a valid state
path. -/
theorem supervisor_fifo_valid_path_witness :
    (supRun .Stopped
        [(.start, ⟨true, 0, true⟩), (.applyConfig, ⟨true, 0, false⟩),
          (.stop, ⟨true, 0, true⟩)]).1 =
      [Request.start, Request.applyConfig, Request.stop] ∧
    validPath .Stopped
      (supRun .Stopped
        [(.start, ⟨true, 0, true⟩), (.applyConfig, ⟨true, 0, false⟩),
          (.stop, ⟨true, 0, true⟩)]).2 = true :=
  ⟨(supervisor_fifo_valid_path .Stopped
      [(.start, ⟨true, 0, true⟩), (.applyConfig, ⟨true, 0, false⟩),
        (.stop, ⟨true, 0, true⟩)]).1,
   (supervisor_fifo_valid_path .Stopped
      [(.start, ⟨true, 0, true⟩), (.applyConfig, ⟨true, 0, false⟩),
        (.stop, ⟨true, 0, true⟩)]).2.1⟩

/-- C6: one crash drives exactly one `Crashed` transition; at most N
automatic restart attempts follow, each waiting the exponential backoff
delay `min(2^k, 30)` (1s, 2s, 4s, ... capped at 30s); when all N
consecutive attempts fail, they are attempts 0 through N-1 followed by
exactly one fatal event, after which nothing further happens; and a
heartbeat miss beyond the timeout drives exactly one `Crashed`
transition. -/
theorem crash_recovery_backoff (N : Nat) (succeeds : Nat → Bool) (code : Int)
    (timeout : Nat) (gaps : List Nat) :
    (onCrash N succeeds code).countP isCrashedEvt = 1 ∧
    (onCrash N succeeds code).countP isAttemptEvt ≤ N ∧
    (∀ k d, SupEvent.restartAttempt k d ∈ onCrash N succeeds code →
      d = min (2 ^ k) 30) ∧
    ((∀ j, j < N → succeeds j = false) →
      onCrash N succeeds code =
        SupEvent.crashed code ::
          ((List.range' 0 N).map
              (fun j => SupEvent.restartAttempt j (backoffDelay j)) ++
            [SupEvent.fatal])) ∧
    (SupEvent.fatal ∈ onCrash N succeeds code ↔ ∀ j, j < N → succeeds j = false) ∧
    (onCrash N succeeds code).countP (fun e => decide (e = SupEvent.fatal)) ≤ 1 ∧
    (∀ l₁ l₂, onCrash N succeeds code = l₁ ++ SupEvent.fatal :: l₂ → l₂ = []) ∧
    (heartbeatMonitor timeout gaps).countP isCrashedEvt ≤ 1 ∧
    ((∃ g ∈ gaps, timeout < g) →
      (heartbeatMonitor timeout gaps).countP isCrashedEvt = 1) := by
  refine ⟨?_, ?_, ?_, ?_, ?_, ?_, ?_,
    (heartbeatMonitor_single_crash timeout gaps).1,
    (heartbeatMonitor_single_crash timeout gaps).2⟩
  · simp [onCrash, List.countP_cons, isCrashedEvt,
      restartAttempts_no_crashed succeeds N 0]
  · simp only [onCrash, List.countP_cons, isAttemptEvt]
    simpa using restartAttempts_budget succeeds N 0
  · intro k d hm
    rcases List.mem_cons.mp hm with hm | hm
    · exact absurd hm (by simp)
    · exact restartAttempts_delay succeeds N 0 k d hm
  · intro hall
    rw [onCrash, restartAttempts_all_fail succeeds N 0 (by simpa using hall)]
  · rw [onCrash, List.mem_cons]
    simp only [restartAttempts_fatal_iff succeeds N 0]
    constructor
    · intro hm
      rcases hm with hm | hm
      · exact absurd hm (by simp)
      · simpa using hm
    · intro hall; right; simpa using hall
  · simp only [onCrash, List.countP_cons]
    have := (restartAttempts_fatal_last succeeds N 0).1
    simp
    omega
  · intro l₁ l₂ he
    rw [onCrash] at he
    cases l₁ with
    | nil =>
      have := (List.cons.injEq _ _ _ _).mp he
      exact absurd this.1.symm (by simp)
    | cons a l₁ =>
      rw [List.cons_append] at he
      have := (List.cons.injEq _ _ _ _).mp he
      exact (restartAttempts_fatal_last succeeds N 0).2 l₁ l₂ this.2

/-- Witness for C6: with a budget of three attempts that all fail, the
crash produces one `Crashed` transition, attempts with delays 1s, 2s, 4s,
and a final fatal event; and three simulated heartbeat gaps of 2s with a
5s timeout, the third observation arriving 6s late, produce exactly one
`Crashed` transition. -/
theorem crash_recovery_backoff_witness :
    onCrash 3 (fun _ => false) 9 =
      [SupEvent.crashed 9, SupEvent.restartAttempt 0 1,
        SupEvent.restartAttempt 1 2, SupEvent.restartAttempt 2 4,
        SupEvent.fatal] ∧
    (heartbeatMonitor 5 [2, 2, 6]).countP isCrashedEvt = 1 :=
  ⟨by
    rw [(crash_recovery_backoff 3 (fun _ => false) 9 5 [2, 2, 6]).2.2.2.1
      (fun j _ => rfl)]
    decide,
   (crash_recovery_backoff 3 (fun _ => false) 9 5 [2, 2, 6]).2.2.2.2.2.2.2.2
     ⟨6, by decide, by decide⟩⟩

/-- C7: a check against a verified manifest whose version equals the
running application version, or whose version comparison is ambiguous,
emits `updateUpToDate` (treated as no update available, never as an
update to force), returns the coordinator to idle, and triggers no
artifact download. -/
theorem check_up_to_date_no_download (mb sig : List Nat) (m : UpdateManifest)
    (hv : verify mb sig SignaturePublicKey = .ok m)
    (hud : m.version = packageVersion ∨
      versionNewer m.version packageVersion = none) :
    coordStep .idle (.checkRequest mb sig) =
      (.idle, [.checking, .updateUpToDate]) ∧
    ∀ (mb2 sig2 : List Nat) (m2 : UpdateManifest),
      CoordEvent.downloadArtifact mb2 sig2 m2 ∉
        (coordStep .idle (.checkRequest mb sig)).2 := by
  have hstep : coordStep .idle (.checkRequest mb sig) =
      (.idle, [.checking, .updateUpToDate]) := by
    rcases hud with he | hn
    · have hne : versionNewer m.version packageVersion ≠ some true := by
        rw [he]
        cases hp : parseVersion packageVersion with
        | none => simp [versionNewer, hp]
        | some a => simp [versionNewer, hp, versionLt_irrefl]
      cases hn2 : versionNewer m.version packageVersion with
      | none => simp [coordStep, hv, hn2]
      | some b =>
        cases b with
        | false => simp [coordStep, hv, hn2]
        | true => exact absurd hn2 hne
    · simp [coordStep, hv, hn]
  refine ⟨hstep, fun mb2 sig2 m2 => ?_⟩
  rw [hstep]
  simp

set_option maxRecDepth 10000 in
/-- Witness for C7: a signed manifest carrying exactly the running version
13.1.5 makes the check report up-to-date and download nothing. -/
theorem check_up_to_date_no_download_witness :
    coordStep .idle
        (.checkRequest [6, 49, 51, 46, 49, 46, 53, 0, 99]
          (sigBytes SignaturePublicKey [6, 49, 51, 46, 49, 46, 53, 0, 99])) =
      (.idle, [.checking, .updateUpToDate]) :=
  (check_up_to_date_no_download [6, 49, 51, 46, 49, 46, 53, 0, 99]
    (sigBytes SignaturePublicKey [6, 49, 51, 46, 49, 46, 53, 0, 99])
    ⟨"13.1.5", "", 99⟩ (by decide) (Or.inl rfl)).1

/-- C8: cancelling an in-progress fetch deletes the partial temporary
file (no temp file remains), emits exactly one cancelled event — which is
the last event, nothing happening after the abort — and never emits a
failed event. -/
theorem cancel_fetch_clean (chunks : List (List Nat)) (acc : List Nat)
    (i : Nat) (hi : i ≤ chunks.length) :
    (runFetchCancel (some i) chunks acc).1 = none ∧
    (runFetchCancel (some i) chunks acc).2.countP
        (fun e => decide (e = DlEvent.cancelled)) = 1 ∧
    (runFetchCancel (some i) chunks acc).2.countP
        (fun e => decide (e = DlEvent.failedEvt)) = 0 ∧
    (runFetchCancel (some i) chunks acc).2.getLast? = some DlEvent.cancelled := by
  induction chunks generalizing i acc with
  | nil =>
    have hi0 : i = 0 := Nat.le_zero.mp hi
    subst hi0
    exact ⟨rfl, by simp [runFetchCancel], by simp [runFetchCancel],
      by simp [runFetchCancel]⟩
  | cons c rest ih =>
    cases i with
    | zero =>
      exact ⟨rfl, by simp [runFetchCancel], by simp [runFetchCancel],
        by simp [runFetchCancel]⟩
    | succ j =>
      have hj : j ≤ rest.length := by simpa using hi
      obtain ⟨h1, h2, h3, h4⟩ := ih (acc ++ c) j hj
      have hne : (runFetchCancel (some j) rest (acc ++ c)).2 ≠ [] := by
        intro he; rw [he] at h4; simp at h4
      refine ⟨by simpa [runFetchCancel] using h1,
        by simpa [runFetchCancel, List.countP_cons] using h2,
        by simpa [runFetchCancel, List.countP_cons] using h3, ?_⟩
      have : (runFetchCancel (some (j + 1)) (c :: rest) acc).2 =
          DlEvent.progress (acc.length + c.length) ::
            (runFetchCancel (some j) rest (acc ++ c)).2 := by
        simp [runFetchCancel]
      rw [this]
      cases hr : (runFetchCancel (some j) rest (acc ++ c)).2 with
      | nil => exact absurd hr hne
      | cons b l =>
        rw [List.getLast?_cons_cons]
        rw [hr] at h4
        exact h4

/-- Witness for C8: cancelling after the first of two chunks leaves no
temp file and the event stream ends with the single cancelled event. -/
theorem cancel_fetch_clean_witness :
    (runFetchCancel (some 1) [[1, 2], [3]] []).1 = none ∧
    (runFetchCancel (some 1) [[1, 2], [3]] []).2.countP
        (fun e => decide (e = DlEvent.failedEvt)) = 0 ∧
    (runFetchCancel (some 1) [[1, 2], [3]] []).2.getLast? =
      some DlEvent.cancelled :=
  ⟨(cancel_fetch_clean [[1, 2], [3]] [] 1 (by decide)).1,
   (cancel_fetch_clean [[1, 2], [3]] [] 1 (by decide)).2.2.1,
   (cancel_fetch_clean [[1, 2], [3]] [] 1 (by decide)).2.2.2⟩

/-- Witness for C10: a document without a `root` element makes the
bootstrap throw, and one with a `root` element is rendered into exactly
once. -/
theorem bootstrap_requires_container_witness :
    (bootstrap ⟨[("app", 1)]⟩).1 =
      .error ("No container \x27" ++ mainElementId ++ "\x27 found to render application") ∧
    (bootstrap ⟨[("app", 1), ("root", 2)]⟩).2 = [2] :=
  ⟨((bootstrap_requires_container ⟨[("app", 1)]⟩).1 (by decide)).1,
   ((bootstrap_requires_container ⟨[("app", 1), ("root", 2)]⟩).2.1 2 (by decide)).2⟩

end HiddifyDesktop
